import Mathlib

/-!
Verification of the property-data transformer in `src/api.py`
(`transform_property_data`).  The request body, once decoded from the
transport, is a JSON-like value; the endpoint body is embedded here as a
pure function from that value to either a list of flattened records or an
HTTP-level error.  Python dictionaries are modelled as association lists
(first match wins, as `dict.get` does on the unique-key dictionaries the
parser produces), Python truthiness is modelled explicitly, and JSON
numbers are modelled as integers (the payloads under test carry only
integral numbers; fractional literals are treated as parse failures).
-/

/-- JSON-like values as delivered to the endpoint. -/
inductive Json where
  | null : Json
  | bool (b : Bool) : Json
  | num (n : Int) : Json
  | str (s : String) : Json
  | arr (elems : List Json) : Json
  | obj (fields : List (String × Json)) : Json

/-- Lookup in an association list, first match wins. -/
def getKV (kvs : List (String × Json)) (k : String) : Option Json :=
  match kvs with
  | [] => none
  | (k1, v) :: rest => if k1 = k then some v else getKV rest k

/-- Python `d.get(k)`: `none` models Python `None` for a missing key. -/
def Json.get (p : Json) (k : String) : Option Json :=
  match p with
  | .obj kvs => getKV kvs k
  | _ => none

/-- Python `d.get(k)` used where the absent value defaults to `d`. -/
def Json.getD (p : Json) (k : String) (d : Json) : Json :=
  (p.get k).getD d

/-- Python truthiness of a JSON value. -/
def Json.truthy : Json → Bool
  | .null => false
  | .bool b => b
  | .num n => !(n == 0)
  | .str s => !(s == "")
  | .arr l => !l.isEmpty
  | .obj l => !l.isEmpty

/-- Test for `isinstance(x, dict)`. -/
def Json.isObj : Json → Bool
  | .obj _ => true
  | _ => false

/-- Test for `isinstance(x, list)`. -/
def Json.isArr : Json → Bool
  | .arr _ => true
  | _ => false

/-! Buffer-envelope decoding (lines 46-93 of `src/api.py`). -/

/-- Characters stripped by Python `str.strip()` (its ASCII whitespace). -/
def pyWs (c : Char) : Bool :=
  c == ' ' || c == '\t' || c == '\n' || c == '\r' || c == '\x0b' || c == '\x0c'

/-- Python `str.strip()` on a character list. -/
def pyStrip (l : List Char) : List Char :=
  ((l.dropWhile pyWs).reverse.dropWhile pyWs).reverse

/-- Python `s.split(': ')`: split on every occurrence of the two-character
separator, scanning left to right. -/
def splitColonSpace : List Char → List (List Char)
  | [] => [[]]
  | [c] => [[c]]
  | c1 :: c2 :: rest =>
    if c1 = ':' ∧ c2 = ' ' then [] :: splitColonSpace rest
    else
      match splitColonSpace (c2 :: rest) with
      | [] => [[c1]]
      | h :: t => (c1 :: h) :: t

/-- Value of one hexadecimal digit, upper or lower case. -/
def hexDigitVal (c : Char) : Option Nat :=
  if '0' ≤ c ∧ c ≤ '9' then some (c.toNat - '0'.toNat)
  else if 'a' ≤ c ∧ c ≤ 'f' then some (c.toNat - 'a'.toNat + 10)
  else if 'A' ≤ c ∧ c ≤ 'F' then some (c.toNat - 'A'.toNat + 10)
  else none

/-- Python `bytes.fromhex`: pairs of hex digits, spaces allowed between
pairs, anything else rejected. -/
def bytesFromHex : List Char → Option (List Nat)
  | [] => some []
  | c :: rest =>
    if c = ' ' then bytesFromHex rest
    else
      match rest with
      | [] => none
      | c2 :: rest2 =>
        match hexDigitVal c, hexDigitVal c2, bytesFromHex rest2 with
        | some h1, some h2, some bs => some ((16 * h1 + h2) :: bs)
        | _, _, _ => none

/-- Lower-case hex digit for a value below 16. -/
def hexChar (n : Nat) : Char :=
  if n < 10 then Char.ofNat (48 + n) else Char.ofNat (87 + n)

/-- Hex encoding of a byte sequence, two digits per byte. -/
def hexEncode : List Nat → List Char
  | [] => []
  | b :: bs => hexChar (b / 16) :: hexChar (b % 16) :: hexEncode bs

/-- UTF-8 encoding of one scalar value. -/
def utf8EncodeChar (c : Char) : List Nat :=
  if c.toNat < 0x80 then [c.toNat]
  else if c.toNat < 0x800 then [0xC0 + c.toNat / 64, 0x80 + c.toNat % 64]
  else if c.toNat < 0x10000 then
    [0xE0 + c.toNat / 4096, 0x80 + c.toNat / 64 % 64, 0x80 + c.toNat % 64]
  else
    [0xF0 + c.toNat / 0x40000, 0x80 + c.toNat / 4096 % 64, 0x80 + c.toNat / 64 % 64,
      0x80 + c.toNat % 64]

/-- UTF-8 encoding of a character sequence. -/
def utf8Encode : List Char → List Nat
  | [] => []
  | c :: cs => utf8EncodeChar c ++ utf8Encode cs

/-- Continuation byte test for the UTF-8 decoder. -/
def isCont (b : Nat) : Bool := decide (0x80 ≤ b ∧ b < 0xC0)

mutual

/-- Strict UTF-8 decoder, as Python `bytes.decode` with the default
strict error handling: rejects truncated sequences, bad continuation
bytes, overlong forms, surrogates and values beyond the last code point. -/
def utf8Decode : List Nat → Option (List Char)
  | [] => some []
  | b :: rest =>
    if b < 0x80 then (utf8Decode rest).map (fun cs => Char.ofNat b :: cs)
    else if b < 0xC2 then none
    else if b < 0xE0 then utf8DecodeTwo b rest
    else if b < 0xF0 then utf8DecodeThree b rest
    else if b < 0xF5 then utf8DecodeFour b rest
    else none
termination_by structural l => l

/-- Continuation of a two-byte sequence after its lead byte. -/
def utf8DecodeTwo (b : Nat) : List Nat → Option (List Char)
  | b1 :: rest =>
    if isCont b1 then
      (utf8Decode rest).map (fun cs => Char.ofNat ((b - 0xC0) * 64 + (b1 - 0x80)) :: cs)
    else none
  | [] => none
termination_by structural l => l

/-- Continuation of a three-byte sequence after its lead byte. -/
def utf8DecodeThree (b : Nat) : List Nat → Option (List Char)
  | b1 :: b2 :: rest =>
    if isCont b1 && isCont b2 then
      if (b - 0xE0) * 4096 + (b1 - 0x80) * 64 + (b2 - 0x80) < 0x800 then none
      else if 0xD800 ≤ (b - 0xE0) * 4096 + (b1 - 0x80) * 64 + (b2 - 0x80) ∧
          (b - 0xE0) * 4096 + (b1 - 0x80) * 64 + (b2 - 0x80) < 0xE000 then none
      else
        (utf8Decode rest).map
          (fun cs => Char.ofNat ((b - 0xE0) * 4096 + (b1 - 0x80) * 64 + (b2 - 0x80)) :: cs)
    else none
  | _ => none
termination_by structural l => l

/-- Continuation of a four-byte sequence after its lead byte. -/
def utf8DecodeFour (b : Nat) : List Nat → Option (List Char)
  | b1 :: b2 :: b3 :: rest =>
    if isCont b1 && isCont b2 && isCont b3 then
      if (b - 0xF0) * 0x40000 + (b1 - 0x80) * 4096 + (b2 - 0x80) * 64 + (b3 - 0x80)
          < 0x10000 then none
      else if 0x110000 ≤
          (b - 0xF0) * 0x40000 + (b1 - 0x80) * 4096 + (b2 - 0x80) * 64 + (b3 - 0x80) then none
      else
        (utf8Decode rest).map
          (fun cs => Char.ofNat
            ((b - 0xF0) * 0x40000 + (b1 - 0x80) * 4096 + (b2 - 0x80) * 64 + (b3 - 0x80)) :: cs)
    else none
  | _ => none
termination_by structural l => l

end

/-! JSON parsing, a model of Python `json.loads` restricted to integral
numbers (fractional and exponent forms, `NaN`/`Infinity`, and lone
surrogates in strings are treated as parse failures). -/

/-- JSON insignificant whitespace. -/
def jsonWs (c : Char) : Bool := c == ' ' || c == '\t' || c == '\n' || c == '\r'

/-- Drop leading JSON whitespace. -/
def skipWs (l : List Char) : List Char := l.dropWhile jsonWs

/-- Expect a literal character sequence. -/
def expectChars : List Char → List Char → Option (List Char)
  | [], s => some s
  | e :: es, c :: s => if c = e then expectChars es s else none
  | _ :: _, [] => none

/-- Decimal digit test. -/
def isDigitCh (c : Char) : Bool := '0' ≤ c && c ≤ '9'

/-- Parse the integer part after an optional sign: one digit `0`, or a
nonzero digit followed by digits, as the JSON grammar requires. -/
def parseDigits (l : List Char) : Option (Nat × List Char) :=
  match l with
  | [] => none
  | c :: rest =>
    if c = '0' then some (0, rest)
    else if isDigitCh c then
      let ds := rest.takeWhile isDigitCh
      some (ds.foldl (fun acc d => 10 * acc + (d.toNat - 48)) (c.toNat - 48),
            rest.dropWhile isDigitCh)
    else none

/-- Parse exactly four hex digits of a `\u` escape. -/
def parseHex4 : List Char → Option (Nat × List Char)
  | c1 :: c2 :: c3 :: c4 :: rest =>
    match hexDigitVal c1, hexDigitVal c2, hexDigitVal c3, hexDigitVal c4 with
    | some h1, some h2, some h3, some h4 =>
      some (((h1 * 16 + h2) * 16 + h3) * 16 + h4, rest)
    | _, _, _, _ => none
  | _ => none

/-- Replace an association-list binding, keeping first-occurrence order,
as a Python dict literal with duplicate keys does. -/
def insertKV : List (String × Json) → String → Json → List (String × Json)
  | [], k, v => [(k, v)]
  | (k1, v1) :: rest, k, v =>
    if k1 = k then (k1, v) :: rest else (k1, v1) :: insertKV rest k v

/-- Parse the body of a JSON string after the opening quote, through the
closing quote. -/
def parseStringBody : Nat → List Char → Option (List Char × List Char)
  | 0, _ => none
  | _ + 1, [] => none
  | fuel + 1, c :: rest =>
    if c = '\x22' then some ([], rest)
    else if c = '\\' then
      match rest with
      | [] => none
      | e :: rest1 =>
        let esc : Option (Char × List Char) :=
          if e = '\x22' then some ('\x22', rest1)
          else if e = '\\' then some ('\\', rest1)
          else if e = '/' then some ('/', rest1)
          else if e = 'b' then some ('\x08', rest1)
          else if e = 'f' then some ('\x0c', rest1)
          else if e = 'n' then some ('\n', rest1)
          else if e = 'r' then some ('\r', rest1)
          else if e = 't' then some ('\t', rest1)
          else if e = 'u' then
            match parseHex4 rest1 with
            | some (n, rest2) =>
              if _h : n.isValidChar then some (Char.ofNat n, rest2) else none
            | none => none
          else none
        match esc with
        | some (ch, rest2) =>
          (parseStringBody fuel rest2).map (fun p => (ch :: p.1, p.2))
        | none => none
    else (parseStringBody fuel rest).map (fun p => (c :: p.1, p.2))

mutual

/-- Parse one JSON value, returning it with the unconsumed remainder. -/
def parseValue : Nat → List Char → Option (Json × List Char)
  | 0, _ => none
  | fuel + 1, s =>
    match skipWs s with
    | [] => none
    | c :: rest =>
      if c = '\x7b' then
        match skipWs rest with
        | '\x7d' :: rest1 => some (.obj [], rest1)
        | _ => parseMembers fuel [] rest
      else if c = '[' then
        match skipWs rest with
        | ']' :: rest1 => some (.arr [], rest1)
        | _ => parseElems fuel [] rest
      else if c = '\x22' then
        (parseStringBody (fuel + 1) rest).map (fun p => (.str ⟨p.1⟩, p.2))
      else if c = 't' then (expectChars ['r', 'u', 'e'] rest).map (fun r => (.bool true, r))
      else if c = 'f' then (expectChars ['a', 'l', 's', 'e'] rest).map (fun r => (.bool false, r))
      else if c = 'n' then (expectChars ['u', 'l', 'l'] rest).map (fun r => (.null, r))
      else if c = '-' then
        match parseDigits rest with
        | some (n, r) => some (.num (-(n : Int)), r)
        | none => none
      else
        match parseDigits (c :: rest) with
        | some (n, r) => some (.num (n : Int), r)
        | none => none

/-- Parse the members of a JSON object after its opening brace. -/
def parseMembers : Nat → List (String × Json) → List Char → Option (Json × List Char)
  | 0, _, _ => none
  | fuel + 1, acc, s =>
    match skipWs s with
    | '\x22' :: rest =>
      match parseStringBody (fuel + 1) rest with
      | some (key, rest1) =>
        match skipWs rest1 with
        | ':' :: rest2 =>
          match parseValue fuel rest2 with
          | some (v, rest3) =>
            match skipWs rest3 with
            | ',' :: rest4 => parseMembers fuel (insertKV acc ⟨key⟩ v) rest4
            | '\x7d' :: rest4 => some (.obj (insertKV acc ⟨key⟩ v), rest4)
            | _ => none
          | none => none
        | _ => none
      | none => none
    | _ => none

/-- Parse the elements of a JSON array after its opening bracket. -/
def parseElems : Nat → List Json → List Char → Option (Json × List Char)
  | 0, _, _ => none
  | fuel + 1, acc, s =>
    match parseValue fuel s with
    | some (v, rest) =>
      match skipWs rest with
      | ',' :: rest1 => parseElems fuel (v :: acc) rest1
      | ']' :: rest1 => some (.arr (v :: acc).reverse, rest1)
      | _ => none
    | none => none

end

/-- Model of Python `json.loads`: parse one value and require only
whitespace to remain. -/
def jsonParse (s : List Char) : Option Json :=
  match parseValue (2 * s.length + 2) s with
  | some (v, rest) => if skipWs rest = [] then some v else none
  | none => none

/-! Error surface of the endpoint.  Every `raise HTTPException` site in
`src/api.py` that the embedded code can reach gets one constructor; the
four buffer sub-failures all funnel through the single handler at line 83
into one top-level error with one detail template. -/

/-- Sub-step at which decoding an `IMTBuffer` envelope failed (the
`ValueError` messages built at lines 54, 65, 73 and 81). -/
inductive BufferFailure where
  | missingSeparator : BufferFailure
  | invalidHex : BufferFailure
  | invalidUtf8 : BufferFailure
  | invalidJson : BufferFailure
deriving DecidableEq

/-- Errors raised by `transform_property_data`. -/
inductive ApiError where
  | bufferError (sub : BufferFailure) : ApiError
  | invalidJsonString : ApiError
  | notDict : ApiError
  | emptyDict : ApiError
  | resultsNotFound : ApiError
  | resultsNotDict : ApiError
  | propertiesNotFound : ApiError
  | propertiesNotList : ApiError
deriving DecidableEq

/-- HTTP status attached to each reachable error: every one is 400. -/
def ApiError.status : ApiError → Nat := fun _ => 400

/-- Message attached to each buffer sub-failure inside the single
buffer-error detail (the static part of the `ValueError` text). -/
def BufferFailure.msg : BufferFailure → String
  | .missingSeparator => "Invalid IMTBuffer format: missing data part"
  | .invalidHex => "Invalid hex data"
  | .invalidUtf8 => "Invalid UTF-8 data"
  | .invalidJson => "Invalid JSON data"

/-- Static part of the `detail` string of each error. -/
def ApiError.detail : ApiError → String
  | .bufferError sub => "Error processing buffer data: " ++ sub.msg
  | .invalidJsonString => "Invalid JSON data: "
  | .notDict => "Expected data to be a dictionary"
  | .emptyDict => "Expected data to be a non-empty dictionary"
  | .resultsNotFound => "\x27results\x27 key not found in data"
  | .resultsNotDict => "\x27results\x27 must be a dictionary"
  | .propertiesNotFound => "\x27properties\x27 key not found in results"
  | .propertiesNotList => "\x27properties\x27 must be a list"

/-- Characters of the literal `IMTBuffer` marker. -/
def imtMarker : List Char := ['I', 'M', 'T', 'B', 'u', 'f', 'f', 'e', 'r']

/-- String-body normalization, lines 46-93: an `IMTBuffer`-marked string
is split on `": "`, hex-decoded, UTF-8-decoded and JSON-parsed, any
failure giving the one buffer error; any other string is JSON-parsed
directly; a non-string body passes through unchanged. -/
def normalizeBody (d : Json) : Except ApiError Json :=
  match d with
  | .str s =>
    if imtMarker.isPrefixOf s.data then
      match splitColonSpace s.data with
      | [_, hx] =>
        match bytesFromHex (pyStrip hx) with
        | none => .error (.bufferError .invalidHex)
        | some bs =>
          match utf8Decode bs with
          | none => .error (.bufferError .invalidUtf8)
          | some cs =>
            match jsonParse cs with
            | none => .error (.bufferError .invalidJson)
            | some v => .ok v
      | _ => .error (.bufferError .missingSeparator)
    else
      match jsonParse s.data with
      | some v => .ok v
      | none => .error .invalidJsonString
  | _ => .ok d

/-- Structural validation, lines 96-122: the normalized body must be a
non-empty dictionary, `results` must be present, truthy and a dictionary,
and `properties` must be present, truthy and a list; the property list is
returned.  Note that `if not results` and `if not properties_list` are
truthiness tests, so a present-but-empty container takes the
key-not-found branch. -/
def parseProps (d : Json) : Except ApiError (List Json) :=
  match normalizeBody d with
  | .error e => .error e
  | .ok data =>
    match data with
    | .obj kvs =>
      if kvs.isEmpty then .error .emptyDict
      else
        match Json.get data "results" with
        | none => .error .resultsNotFound
        | some results =>
          if results.truthy = false then .error .resultsNotFound
          else
            match results with
            | .obj _ =>
              match Json.get results "properties" with
              | none => .error .propertiesNotFound
              | some props =>
                if props.truthy = false then .error .propertiesNotFound
                else
                  match props with
                  | .arr l => .ok l
                  | _ => .error .propertiesNotList
            | _ => .error .resultsNotDict
    | _ => .error .notDict

/-! Record flattening (lines 127-186 of `src/api.py`). -/

/-- Keep an optional value only when present and truthy, as the
`if phone:` and `if full_name:` guards do. -/
def truthyOpt : Option Json → Option Json
  | some v => if v.truthy then some v else none
  | none => none

/-- Working state of the phone scan: the captured first-contact name, the
latch flag, and the phones collected so far in encounter order. -/
structure PhoneScan where
  name : Json
  found : Bool
  phones : List Json

/-- Initial scan state: no name captured, no phones. -/
def initScan : PhoneScan := ⟨.null, false, []⟩

/-- Truthy values among `contact.get` of `phone_1`, `phone_2`, `phone_3`
(line 173-175). -/
def contactPhones (c : Json) : List Json :=
  [Json.get c "phone_1", Json.get c "phone_2", Json.get c "phone_3"].filterMap truthyOpt

/-- The `contact` value of one phone entry, with Python `None` (missing
key) modelled as `null`: both are falsy and fail `isinstance(.., dict)`,
exactly as the guard at line 165 treats them. -/
def contactOf (e : Json) : Json := (Json.get e "contact").getD .null

/-- One iteration of the loop at lines 159-175: skip non-dict entries,
skip falsy or non-dict contacts, capture the first truthy full name once,
and collect the truthy phones of the contact. -/
def scanEntry (st : PhoneScan) (e : Json) : PhoneScan :=
  match e with
  | .obj _ =>
    if (contactOf e).truthy && (contactOf e).isObj then
      let st1 :=
        if st.found then st
        else
          match truthyOpt (Json.get (contactOf e) "full_name") with
          | some fn => { st with name := fn, found := true }
          | none => st
      { st1 with phones := st1.phones ++ contactPhones (contactOf e) }
    else st
  | _ => st

/-- The whole phone scan over a list of phone-number entries. -/
def scanPhones (l : List Json) : PhoneScan := l.foldl scanEntry initScan

/-- The phone-number entries the loop ranges over: the value of
`phone_numbers` when it is a list (`isinstance` guard, line 157),
otherwise nothing. -/
def phonesListOf (p : Json) : List Json :=
  match Json.get p "phone_numbers" with
  | some (.arr l) => l
  | _ => []

/-- Characterization of the first contact name used by the claims: the
full name of the first entry, in input order, whose contact is a truthy
dictionary carrying a truthy full name. -/
def entryFullName (e : Json) : Option Json :=
  match e with
  | .obj _ =>
    if (contactOf e).truthy && (contactOf e).isObj then
      truthyOpt (Json.get (contactOf e) "full_name")
    else none
  | _ => none

/-- Label kept from one `property_flags` entry (line 149): the entry must
be truthy and a dict and carry a truthy label. -/
def flagLabel (f : Json) : Option Json :=
  if f.truthy && f.isObj then truthyOpt (Json.get f "label") else none

/-- The flags comprehension at line 149 over `property_flags` (default
empty).  Iterating a Python dict yields its string keys and iterating a
string yields one-character strings, none of which pass `isinstance(flag,
dict)`, so those cases give an empty list; iterating `None`, a bool or a
number raises, which the per-record handler turns into a skipped record. -/
def flagsOf (p : Json) : Option (List Json) :=
  match Json.get p "property_flags" with
  | none => some []
  | some (.arr l) => some (l.filterMap flagLabel)
  | some (.obj _) => some []
  | some (.str _) => some []
  | some _ => none

/-- All-strings view of the collected phones.  Python `sorted` compares
the set elements pairwise and raises `TypeError` on the mixed types a
non-string phone value would introduce; the record data model carries
phone numbers as strings, so the embedding requires every collected
phone to be a string and treats anything else as the per-record fault. -/
def asStrings : List Json → Option (List String)
  | [] => some []
  | .str s :: rest => (asStrings rest).map (fun l => s :: l)
  | _ => none

/-- Python comparison of two character lists: lexicographic by code
point, shorter prefix first.  Defined structurally so that it evaluates
inside proofs (the library string comparison walks byte iterators and
does not reduce). -/
def listLtB : List Char → List Char → Bool
  | [], [] => false
  | [], _ :: _ => true
  | _ :: _, [] => false
  | a :: as, b :: bs =>
    if a.toNat < b.toNat then true
    else if b.toNat < a.toNat then false
    else listLtB as bs

/-- Python `a < b` on strings. -/
def strLtB (a b : String) : Bool := listLtB a.data b.data

/-- Insertion into a strictly ascending list, dropping duplicates: the
composite of Python set membership and `sorted` over strings. -/
def insertPhone (x : String) : List String → List String
  | [] => [x]
  | y :: ys =>
    if strLtB x y then x :: y :: ys
    else if x = y then y :: ys
    else y :: insertPhone x ys

/-- Result of `sorted(list(set(...)))` on string phones: the strictly
ascending list of the distinct elements. -/
def sortedUnique (l : List String) : List String :=
  l.foldl (fun acc x => insertPhone x acc) []

/-- One flattened output record.  Scalar fields hold the looked-up value
or `null`; `phones` holds the deduplicated ascending phone strings that
the loop at lines 180-181 projects into `phone_0`, `phone_1`, ... -/
structure FlatRecord where
  property_id : Json
  address : Json
  address_street : Json
  address_street2 : Json
  address_city : Json
  address_state : Json
  address_zip : Json
  address_range : Json
  owner_name : Json
  first_contact_name : Json
  bedrooms : Json
  baths : Json
  sqft : Json
  estimated_value : Json
  equity_percent : Json
  last_sale_date : Json
  last_sale_price : Json
  flags : List Json
  phones : List String

/-- Flattening of one property record, lines 127-186.  `none` models the
per-record exception path (line 184): a non-dict record, an unIterable
`property_flags` value, or a non-string phone value reaching `sorted`. -/
def flattenRecord (p : Json) : Option FlatRecord :=
  match p with
  | .obj _ =>
    (flagsOf p).bind fun fl =>
      (asStrings (scanPhones (phonesListOf p)).phones).map fun ps =>
        { property_id := p.getD "property_id" .null
          address := p.getD "property_address_full" .null
          address_street := p.getD "property_address" .null
          address_street2 := p.getD "property_address2" .null
          address_city := p.getD "property_address_city" .null
          address_state := p.getD "property_address_state" .null
          address_zip := p.getD "property_address_zip" .null
          address_range := p.getD "property_address_range" .null
          owner_name := p.getD "owner_name" .null
          first_contact_name := (scanPhones (phonesListOf p)).name
          bedrooms := p.getD "total_bedrooms" .null
          baths := p.getD "total_baths" .null
          sqft := p.getD "building_square_feet" .null
          estimated_value := p.getD "EstimatedValue" .null
          equity_percent := p.getD "equity_percent" .null
          last_sale_date := p.getD "sale_date" .null
          last_sale_price := p.getD "saleprice" .null
          flags := fl
          phones := sortedUnique ps }
  | _ => none

/-- The whole endpoint body: normalize and validate, then flatten each
property, skipping the ones whose processing faults (lines 184-186). -/
def transform (d : Json) : Except ApiError (List FlatRecord) :=
  match parseProps d with
  | .error e => .error e
  | .ok props => .ok (props.filterMap flattenRecord)

/-- Test that an error is the single buffer-envelope kind. -/
def ApiError.isBufferKind : ApiError → Bool
  | .bufferError _ => true
  | _ => false

/-- A field that, when present, holds a list. -/
def fieldIsArrOrAbsent (p : Json) (k : String) : Bool :=
  match Json.get p k with
  | none => true
  | some v => v.isArr

/-- Well-typed property record in the sense the flattener needs: a
mapping whose `property_flags` and `phone_numbers` are lists when
present and whose collected phone values are all strings (the data model
carries phone numbers as strings, and Python `sorted` raises on a mixed
set). -/
def wellTypedRecord (p : Json) : Bool :=
  p.isObj && fieldIsArrOrAbsent p "property_flags" &&
    fieldIsArrOrAbsent p "phone_numbers" &&
    (asStrings (scanPhones (phonesListOf p)).phones).isSome

/-- Well-typed property record in the weaker sense the claim words state:
only the two list fields are constrained, phone values are not. -/
def listTypedRecord (p : Json) : Bool :=
  p.isObj && fieldIsArrOrAbsent p "property_flags" &&
    fieldIsArrOrAbsent p "phone_numbers"

/-- The flat record produced from a record missing every optional field:
null scalars, no flags, no name, no phones. -/
def defaultFlat : FlatRecord :=
  { property_id := .null
    address := .null
    address_street := .null
    address_street2 := .null
    address_city := .null
    address_state := .null
    address_zip := .null
    address_range := .null
    owner_name := .null
    first_contact_name := .null
    bedrooms := .null
    baths := .null
    sqft := .null
    estimated_value := .null
    equity_percent := .null
    last_sale_date := .null
    last_sale_price := .null
    flags := []
    phones := [] }

/-- A buffer envelope built from JSON text: the marker, the separator,
and the hex encoding of the UTF-8 bytes of the text. -/
def bufferEnvelope (t : List Char) : String :=
  ⟨imtMarker ++ ':' :: ' ' :: hexEncode (utf8Encode t)⟩

/-- Record with one unnamed and two named contacts, for the first-name
witness. -/
def c4rec : Json :=
  .obj [("phone_numbers", .arr
    [.obj [("contact", .obj [("phone_1", .str "555-9")])],
     .obj [("contact", .obj [("full_name", .str "Alice"), ("phone_1", .str "555-2")])],
     .obj [("contact", .obj [("full_name", .str "Bob"), ("phone_1", .str "555-1")])]])]

/-- Record whose two list fields are well typed but whose contact mixes
a numeric and a string phone value. -/
def c6bad : Json :=
  .obj [("phone_numbers", .arr
    [.obj [("contact", .obj [("phone_1", .num 1), ("phone_2", .str "a")])]])]

/-- Fully well-typed record with one named contact. -/
def c6good : Json :=
  .obj [("phone_numbers", .arr
    [.obj [("contact", .obj [("full_name", .str "Bob"), ("phone_1", .str "555-1")])]])]

/-- Record collecting the phones `"b"` then `"a"`. -/
def c3rec : Json :=
  .obj [("phone_numbers", .arr
    [.obj [("contact", .obj [("phone_1", .str "b")])],
     .obj [("contact", .obj [("phone_1", .str "a")])]])]

/-- Record collecting the same phone set in the other order. -/
def c3rec2 : Json :=
  .obj [("phone_numbers", .arr
    [.obj [("contact", .obj [("phone_1", .str "a"), ("phone_2", .str "b")])]])]

/-- Characters of the JSON text of the mapping with key a and value 1,
written with escaped braces and quotes. -/
def c9text : List Char := ['\x7b', '\x22', 'a', '\x22', ':', '1', '\x7d']

/-! Properties of the sorted-set construction. -/

/-- Two characters with the same code point are equal. -/
theorem char_eq_of_toNat_eq (a b : Char) (h : a.toNat = b.toNat) : a = b := by
  apply Char.ext
  apply UInt32.toNat.inj
  exact h

/-- The structural list comparison decides the lexicographic order. -/
theorem listLtB_lt : ∀ as bs : List Char,
    listLtB as bs = true ↔ List.Lex (fun a b => a < b) as bs
  | [], [] => by
    rw [listLtB]
    constructor
    · intro h
      cases h
    · intro h
      cases h
  | [], b :: bs => by
    rw [listLtB]
    exact ⟨fun _ => List.Lex.nil, fun _ => rfl⟩
  | a :: as, [] => by
    rw [listLtB]
    constructor
    · intro h
      cases h
    · intro h
      cases h
  | a :: as, b :: bs => by
    rw [listLtB]
    have hab : (a.toNat < b.toNat) ↔ a < b := Iff.rfl
    by_cases h1 : a.toNat < b.toNat
    · rw [if_pos h1]
      exact ⟨fun _ => List.Lex.rel (hab.mp h1), fun _ => rfl⟩
    · rw [if_neg h1]
      by_cases h2 : b.toNat < a.toNat
      · rw [if_pos h2]
        constructor
        · intro h
          cases h
        · intro h
          cases h with
          | rel hlt => exact absurd (hab.mpr hlt) h1
          | cons _ => exact absurd h2 (lt_irrefl _)
      · rw [if_neg h2]
        have heq : a = b := char_eq_of_toNat_eq a b (by omega)
        subst heq
        rw [listLtB_lt as bs]
        constructor
        · intro h
          exact List.Lex.cons h
        · intro h
          cases h with
          | rel hlt => exact absurd (hab.mpr hlt) h1
          | cons htail => exact htail

/-- The structural string comparison decides the string order. -/
theorem strLtB_lt (a b : String) : strLtB a b = true ↔ a < b := by
  rw [String.lt_iff_toList_lt]
  exact listLtB_lt a.data b.data

/-- Membership through one insertion. -/
theorem mem_insertPhone (x y : String) (l : List String) :
    y ∈ insertPhone x l ↔ y = x ∨ y ∈ l := by
  induction l with
  | nil => simp [insertPhone]
  | cons h t ih =>
    rw [insertPhone]
    by_cases h1 : strLtB x h = true
    · rw [if_pos h1]
      simp only [List.mem_cons]
      try tauto
    · rw [if_neg h1]
      by_cases h2 : x = h
      · rw [if_pos h2]
        subst h2
        simp only [List.mem_cons]
        try tauto
      · rw [if_neg h2]
        simp only [List.mem_cons, ih]
        try tauto

/-- Insertion preserves strict ascending order. -/
theorem pairwise_insertPhone (x : String) (l : List String)
    (hl : l.Pairwise (· < ·)) : (insertPhone x l).Pairwise (· < ·) := by
  induction l with
  | nil => simp [insertPhone]
  | cons h t ih =>
    rw [List.pairwise_cons] at hl
    obtain ⟨hh, ht⟩ := hl
    by_cases h1 : strLtB x h = true
    · rw [insertPhone, if_pos h1, List.pairwise_cons]
      have hxh : x < h := (strLtB_lt x h).mp h1
      refine ⟨?_, List.pairwise_cons.mpr ⟨hh, ht⟩⟩
      intro b hb
      rcases List.mem_cons.mp hb with rfl | hb
      · exact hxh
      · exact lt_trans hxh (hh b hb)
    · by_cases h2 : x = h
      · rw [insertPhone, if_neg h1, if_pos h2]
        exact List.pairwise_cons.mpr ⟨hh, ht⟩
      · rw [insertPhone, if_neg h1, if_neg h2, List.pairwise_cons]
        have hnlt : ¬x < h := fun hl => h1 ((strLtB_lt x h).mpr hl)
        refine ⟨?_, ih ht⟩
        intro b hb
        rcases (mem_insertPhone x b t).mp hb with rfl | hb
        · exact lt_of_le_of_ne (not_lt.mp hnlt) (fun e => h2 e.symm)
        · exact hh b hb

/-- The folded insertions keep strict ascending order. -/
theorem pairwise_sortedUnique_aux (l acc : List String)
    (hacc : acc.Pairwise (· < ·)) :
    (l.foldl (fun acc x => insertPhone x acc) acc).Pairwise (· < ·) := by
  induction l generalizing acc with
  | nil => simpa using hacc
  | cons h t ih => exact ih _ (pairwise_insertPhone h acc hacc)

/-- The sorted unique list is strictly ascending. -/
theorem pairwise_sortedUnique (l : List String) :
    (sortedUnique l).Pairwise (· < ·) :=
  pairwise_sortedUnique_aux l [] (by simp)

/-- Membership through the folded insertions. -/
theorem mem_sortedUnique_aux (l : List String) (acc : List String) (y : String) :
    (y ∈ l.foldl (fun acc x => insertPhone x acc) acc) ↔ y ∈ acc ∨ y ∈ l := by
  induction l generalizing acc with
  | nil => simp
  | cons h t ih =>
    rw [List.foldl_cons, ih, mem_insertPhone]
    simp only [List.mem_cons]
    tauto

/-- The sorted unique list has the same members as its input. -/
theorem mem_sortedUnique (l : List String) (y : String) :
    y ∈ sortedUnique l ↔ y ∈ l := by
  rw [sortedUnique, mem_sortedUnique_aux]
  simp

/-- Two strictly ascending lists with the same members are equal. -/
theorem sorted_lists_unique : ∀ l1 l2 : List String,
    l1.Pairwise (· < ·) → l2.Pairwise (· < ·) → (∀ x, x ∈ l1 ↔ x ∈ l2) → l1 = l2
  | [], [], _, _, _ => rfl
  | [], h2 :: _, _, _, hm => absurd ((hm h2).mpr (List.mem_cons_self h2 _)) (by simp)
  | h1 :: _, [], _, _, hm => absurd ((hm h1).mp (List.mem_cons_self h1 _)) (by simp)
  | h1 :: t1, h2 :: t2, hp1, hp2, hm => by
    rw [List.pairwise_cons] at hp1 hp2
    have hh : h1 = h2 := by
      rcases List.mem_cons.mp ((hm h1).mp (List.mem_cons_self h1 t1)) with e | hin
      · exact e
      · rcases List.mem_cons.mp ((hm h2).mpr (List.mem_cons_self h2 t2)) with e | hin2
        · exact e.symm
        · exact absurd (lt_trans (hp1.1 h2 hin2) (hp2.1 h1 hin)) (lt_irrefl h1)
    subst hh
    have ht : ∀ x, x ∈ t1 ↔ x ∈ t2 := by
      intro x
      constructor
      · intro hx
        rcases List.mem_cons.mp ((hm x).mp (List.mem_cons_of_mem _ hx)) with e | h
        · have hlt := hp1.1 x hx
          rw [e] at hlt
          exact absurd hlt (lt_irrefl h1)
        · exact h
      · intro hx
        rcases List.mem_cons.mp ((hm x).mpr (List.mem_cons_of_mem _ hx)) with e | h
        · have hlt := hp2.1 x hx
          rw [e] at hlt
          exact absurd hlt (lt_irrefl h1)
        · exact h
    rw [sorted_lists_unique t1 t2 hp1.2 hp2.2 ht]

/-- The sorted unique list depends only on the set of elements. -/
theorem sortedUnique_ext (l1 l2 : List String) (hm : ∀ x, x ∈ l1 ↔ x ∈ l2) :
    sortedUnique l1 = sortedUnique l2 :=
  sorted_lists_unique _ _ (pairwise_sortedUnique l1) (pairwise_sortedUnique l2)
    (fun x => by rw [mem_sortedUnique, mem_sortedUnique]; exact hm x)


/-! Properties of the phone scan. -/

/-- Once the latch flag is set, one scan step changes neither name nor
flag. -/
theorem scanEntry_found (st : PhoneScan) (e : Json) (h : st.found = true) :
    (scanEntry st e).name = st.name ∧ (scanEntry st e).found = true := by
  obtain ⟨nm, fnd, ph⟩ := st
  simp only at h
  subst h
  cases e with
  | obj kvs =>
    simp only [scanEntry]
    by_cases hc : ((contactOf (Json.obj kvs)).truthy && (contactOf (Json.obj kvs)).isObj) = true
    · rw [if_pos hc]
      exact ⟨rfl, rfl⟩
    · rw [if_neg hc]
      exact ⟨rfl, rfl⟩
  | null => exact ⟨rfl, rfl⟩
  | bool b => exact ⟨rfl, rfl⟩
  | num n => exact ⟨rfl, rfl⟩
  | str s => exact ⟨rfl, rfl⟩
  | arr l => exact ⟨rfl, rfl⟩

/-- Once the latch flag is set, the whole scan keeps the name. -/
theorem scan_found (l : List Json) (st : PhoneScan) (h : st.found = true) :
    (l.foldl scanEntry st).name = st.name ∧ (l.foldl scanEntry st).found = true := by
  induction l generalizing st with
  | nil => exact ⟨rfl, h⟩
  | cons e t ih =>
    rw [List.foldl_cons]
    have he := scanEntry_found st e h
    obtain ⟨ih1, ih2⟩ := ih (scanEntry st e) he.2
    exact ⟨ih1.trans he.1, ih2⟩

/-- A step over an entry with no qualifying name changes neither name
nor flag. -/
theorem scanEntry_noname (st : PhoneScan) (e : Json) (h : entryFullName e = none) :
    (scanEntry st e).name = st.name ∧ (scanEntry st e).found = st.found := by
  obtain ⟨nm, fnd, ph⟩ := st
  cases e with
  | obj kvs =>
    simp only [entryFullName] at h
    simp only [scanEntry]
    by_cases hc : ((contactOf (Json.obj kvs)).truthy && (contactOf (Json.obj kvs)).isObj) = true
    · rw [if_pos hc] at h ⊢
      cases fnd with
      | true => exact ⟨rfl, rfl⟩
      | false =>
        rw [if_neg (by simp)]
        rw [h]
        exact ⟨rfl, rfl⟩
    · rw [if_neg hc]
      exact ⟨rfl, rfl⟩
  | null => exact ⟨rfl, rfl⟩
  | bool b => exact ⟨rfl, rfl⟩
  | num n => exact ⟨rfl, rfl⟩
  | str s => exact ⟨rfl, rfl⟩
  | arr l => exact ⟨rfl, rfl⟩

/-- A step over the first qualifying entry captures its name and sets
the latch flag. -/
theorem scanEntry_name (st : PhoneScan) (e : Json) (fn : Json)
    (h : entryFullName e = some fn) (hf : st.found = false) :
    (scanEntry st e).name = fn ∧ (scanEntry st e).found = true := by
  obtain ⟨nm, fnd, ph⟩ := st
  simp only at hf
  subst hf
  cases e with
  | obj kvs =>
    simp only [entryFullName] at h
    simp only [scanEntry]
    by_cases hc : ((contactOf (Json.obj kvs)).truthy && (contactOf (Json.obj kvs)).isObj) = true
    · rw [if_pos hc] at h ⊢
      rw [if_neg (by simp)]
      rw [h]
      exact ⟨rfl, rfl⟩
    · rw [if_neg hc] at h
      exact absurd h (by simp)
  | null => exact absurd h (by simp [entryFullName])
  | bool b => exact absurd h (by simp [entryFullName])
  | num n => exact absurd h (by simp [entryFullName])
  | str s => exact absurd h (by simp [entryFullName])
  | arr l => exact absurd h (by simp [entryFullName])

/-- The name computed by the scan is the first qualifying full name, or
the starting name when none qualifies. -/
theorem scan_name (l : List Json) (st : PhoneScan) (hf : st.found = false) :
    (l.foldl scanEntry st).name = (l.findSome? entryFullName).getD st.name := by
  induction l generalizing st with
  | nil => simp
  | cons e t ih =>
    rw [List.foldl_cons, List.findSome?_cons]
    cases he : entryFullName e with
    | some fn =>
      have h1 := scanEntry_name st e fn he hf
      have h2 := scan_found t (scanEntry st e) h1.2
      simp [h2.1, h1.1]
    | none =>
      have h1 := scanEntry_noname st e he
      rw [ih (scanEntry st e) (h1.2.trans hf)]
      simp [h1.1]

/-- Every phone a contact contributes is truthy. -/
theorem contactPhones_truthy (c x : Json) (h : x ∈ contactPhones c) :
    x.truthy = true := by
  rw [contactPhones] at h
  rcases List.mem_filterMap.mp h with ⟨o, _, ho⟩
  cases o with
  | none => simp [truthyOpt] at ho
  | some v =>
    simp only [truthyOpt] at ho
    by_cases hv : v.truthy = true
    · rw [if_pos hv] at ho
      cases ho
      exact hv
    · rw [if_neg hv] at ho
      cases ho

/-- One scan step only appends truthy phones. -/
theorem scanEntry_phones_truthy (st : PhoneScan) (e : Json)
    (h : ∀ x ∈ st.phones, x.truthy = true) :
    ∀ x ∈ (scanEntry st e).phones, x.truthy = true := by
  obtain ⟨nm, fnd, ph⟩ := st
  simp only at h
  cases e with
  | obj kvs =>
    simp only [scanEntry]
    by_cases hc : ((contactOf (Json.obj kvs)).truthy && (contactOf (Json.obj kvs)).isObj) = true
    · rw [if_pos hc]
      intro x hx
      cases fnd with
      | true =>
        simp only [if_pos rfl] at hx
        rcases List.mem_append.mp hx with h1 | h2
        · exact h x h1
        · exact contactPhones_truthy _ x h2
      | false =>
        rw [if_neg (by simp)] at hx
        cases hn : truthyOpt (Json.get (contactOf (Json.obj kvs)) "full_name") with
        | some fn =>
          rw [hn] at hx
          rcases List.mem_append.mp hx with h1 | h2
          · exact h x h1
          · exact contactPhones_truthy _ x h2
        | none =>
          rw [hn] at hx
          rcases List.mem_append.mp hx with h1 | h2
          · exact h x h1
          · exact contactPhones_truthy _ x h2
    · rw [if_neg hc]
      exact h
  | null => exact h
  | bool b => exact h
  | num n => exact h
  | str s => exact h
  | arr l => exact h

/-- The whole scan collects only truthy phones. -/
theorem scan_phones_truthy (l : List Json) (st : PhoneScan)
    (h : ∀ x ∈ st.phones, x.truthy = true) :
    ∀ x ∈ (l.foldl scanEntry st).phones, x.truthy = true := by
  induction l generalizing st with
  | nil => exact h
  | cons e t ih => exact ih (scanEntry st e) (scanEntry_phones_truthy st e h)

/-- The all-strings view succeeds exactly on lists of string values and
recovers them in order. -/
theorem asStrings_eq_map : ∀ (l : List Json) (s : List String),
    asStrings l = some s → l = s.map Json.str := by
  intro l
  induction l with
  | nil =>
    intro s h
    simp only [asStrings] at h
    cases h
    rfl
  | cons v rest ih =>
    intro s h
    cases v with
    | str a =>
      simp only [asStrings] at h
      cases hr : asStrings rest with
      | none => rw [hr] at h; cases h
      | some s1 =>
        rw [hr] at h
        cases h
        simp [ih s1 hr]
    | null => simp [asStrings] at h
    | bool b => simp [asStrings] at h
    | num n => simp [asStrings] at h
    | arr l2 => simp [asStrings] at h
    | obj kvs => simp [asStrings] at h

/-- A filter-map over a list where the function always succeeds has the
same length as the list. -/
theorem length_filterMap_isSome {α β : Type} (f : α → Option β) :
    ∀ l : List α, (∀ x ∈ l, (f x).isSome = true) →
      (l.filterMap f).length = l.length := by
  intro l
  induction l with
  | nil => intro _; rfl
  | cons a t ih =>
    intro h
    rw [List.filterMap_cons]
    cases hf : f a with
    | none =>
      have := h a (List.mem_cons_self a t)
      rw [hf] at this
      cases this
    | some b =>
      simp only [List.length_cons, ih (fun x hx => h x (List.mem_cons_of_mem _ hx))]

/-- Reduction of bind over a present value. -/
theorem someBind {α β : Type} (a : α) (f : α → Option β) :
    (Option.some a).bind f = f a := rfl

/-- A successful flattening determines its phone list and first-contact
name from the phone scan of the record. -/
theorem flattenRecord_inv (r : Json) (fr : FlatRecord)
    (h : flattenRecord r = some fr) :
    ∃ ps, asStrings (scanPhones (phonesListOf r)).phones = some ps ∧
      fr.phones = sortedUnique ps ∧
      fr.first_contact_name = (scanPhones (phonesListOf r)).name := by
  cases r with
  | obj kvs =>
    simp only [flattenRecord] at h
    cases hfl : flagsOf (Json.obj kvs) with
    | none => rw [hfl] at h; cases h
    | some fl =>
      rw [hfl, someBind] at h
      cases hps : asStrings (scanPhones (phonesListOf (Json.obj kvs))).phones with
      | none => rw [hps] at h; cases h
      | some ps =>
        rw [hps] at h
        cases h
        exact ⟨ps, rfl, rfl, rfl⟩
  | null => simp [flattenRecord] at h
  | bool b => simp [flattenRecord] at h
  | num n => simp [flattenRecord] at h
  | str s => simp [flattenRecord] at h
  | arr l => simp [flattenRecord] at h

/-- When the flags field is absent or a list, the flags comprehension
cannot fault. -/
theorem flagsOf_isSome (p : Json) (h : fieldIsArrOrAbsent p "property_flags" = true) :
    (flagsOf p).isSome = true := by
  rw [fieldIsArrOrAbsent] at h
  rw [flagsOf]
  cases hg : Json.get p "property_flags" with
  | none => rfl
  | some v =>
    rw [hg] at h
    cases v with
    | arr l => rfl
    | null => simp [Json.isArr] at h
    | bool b => simp [Json.isArr] at h
    | num n => simp [Json.isArr] at h
    | str s => rfl
    | obj kvs => rfl

/-- C1: the spec accepts a list whose first element wraps
`results.properties` (shape 4) and a bare record list (shape 5); the
code instead rejects both at line 96 with the not-a-dictionary error, as
these two concrete bodies show. -/
theorem claim_C1_counterexample :
    transform (.arr [.obj [("results", .obj [("properties", .arr [.obj []])])]])
      = .error .notDict ∧
    transform (.arr [.obj [("property_id", .str "P1")]]) = .error .notDict :=
  ⟨rfl, rfl⟩

/-- C1 amended: every list-shaped request body, including the two
shapes the claim names, is rejected with the 400 not-a-dictionary
validation error instead of being normalized to its record sequence. -/
theorem claim_C1_amended (xs : List Json) :
    transform (.arr xs) = .error .notDict ∧ ApiError.notDict.status = 400 :=
  ⟨rfl, rfl⟩

/-- C2 counterexample: a present but explicitly empty `properties` list
is not answered with an empty 200 array; the truthiness test at line 116
sends it down the same 400 key-not-found branch as an absent key. -/
theorem claim_C2_counterexample :
    transform (.obj [("results", .obj [("properties", .arr [])])])
      = .error .propertiesNotFound := rfl

/-- C2 amended: a `results` mapping lacking the `properties` key fails
with the 400 key-not-found error, and an explicitly empty `properties`
list fails with that same error rather than producing an empty 200
array. -/
theorem claim_C2_amended (rkvs : List (String × Json))
    (hne : rkvs ≠ []) (habs : getKV rkvs "properties" = none) :
    transform (.obj [("results", .obj rkvs)]) = .error .propertiesNotFound ∧
    transform (.obj [("results", .obj [("properties", .arr [])])])
      = .error .propertiesNotFound ∧
    ApiError.propertiesNotFound.status = 400 := by
  refine ⟨?_, rfl, rfl⟩
  have hE : rkvs.isEmpty = false := by
    cases rkvs with
    | nil => exact absurd rfl hne
    | cons a t => rfl
  simp [transform, parseProps, normalizeBody, Json.get, getKV, Json.truthy, hE, habs]

/-- C2 witness: a results mapping with some other key but no
`properties`. -/
theorem claim_C2_witness :
    transform (.obj [("results", .obj [("x", .num 1)])]) = .error .propertiesNotFound ∧
    transform (.obj [("results", .obj [("properties", .arr [])])])
      = .error .propertiesNotFound ∧
    ApiError.propertiesNotFound.status = 400 :=
  claim_C2_amended [("x", .num 1)] (by simp) rfl

/-- C5: validation is decided by `parseProps` alone, before any record
is flattened, and a validation error aborts the whole request with no
partial output; on a valid property list the response is the 200
filter-map of the flattener over the properties, of length at most the
input length, with equality exactly when no per-record fault occurs. -/
theorem claim_C5 (d : Json) :
    (∀ e, parseProps d = .error e → transform d = .error e) ∧
    (∀ props, parseProps d = .ok props →
      transform d = .ok (props.filterMap flattenRecord) ∧
      (props.filterMap flattenRecord).length ≤ props.length ∧
      ((∀ p ∈ props, (flattenRecord p).isSome = true) →
        (props.filterMap flattenRecord).length = props.length)) := by
  constructor
  · intro e he
    simp only [transform]
    rw [he]
  · intro props hp
    refine ⟨?_, List.length_filterMap_le _ _, length_filterMap_isSome _ props⟩
    simp only [transform]
    rw [hp]

/-- C5 witness: a one-record body flattens to exactly one output
record. -/
theorem claim_C5_witness :
    transform (Json.obj [("results", Json.obj [("properties", Json.arr [Json.obj []])])])
      = .ok ([Json.obj []].filterMap flattenRecord) ∧
    ([Json.obj []].filterMap flattenRecord).length ≤ 1 ∧
    ([Json.obj []].filterMap flattenRecord).length = 1 := by
  have h := (claim_C5 (Json.obj [("results", Json.obj [("properties",
    Json.arr [Json.obj []])])])).2 [Json.obj []] rfl
  have hall : ∀ p ∈ [Json.obj []], (flattenRecord p).isSome = true := by
    intro p hp
    rw [List.mem_singleton] at hp
    subst hp
    rfl
  exact ⟨h.1, h.2.1, h.2.2 hall⟩

/-- C7 counterexample: the empty-string body is rejected through the
plain-JSON branch at line 93, whose detail is the invalid-JSON message,
not the empty-input message the claim requires; likewise the empty list
gets the not-a-dictionary message. -/
theorem claim_C7_counterexample :
    transform (.str "") = .error .invalidJsonString ∧
    ApiError.invalidJsonString ≠ ApiError.emptyDict ∧
    transform (.arr []) = .error .notDict ∧
    ApiError.notDict ≠ ApiError.emptyDict :=
  ⟨rfl, by decide, rfl, by decide⟩

/-- C7 amended: the empty string, the empty mapping and the empty list
are each rejected with HTTP 400, but only the empty mapping carries the
empty-input detail; the empty string is reported as invalid JSON and
the empty list as not a dictionary. -/
theorem claim_C7_amended :
    transform (.str "") = .error .invalidJsonString ∧
    transform (.obj []) = .error .emptyDict ∧
    transform (.arr []) = .error .notDict ∧
    ApiError.invalidJsonString.status = 400 ∧
    ApiError.emptyDict.status = 400 ∧
    ApiError.notDict.status = 400 ∧
    ApiError.emptyDict.detail = "Expected data to be a non-empty dictionary" ∧
    ApiError.invalidJsonString.detail = "Invalid JSON data: " ∧
    ApiError.notDict.detail = "Expected data to be a dictionary" :=
  ⟨rfl, rfl, rfl, rfl, rfl, rfl, rfl, rfl, rfl⟩

/-- C10: a record whose `phone_numbers` value is present but not a list
is still flattened (the `isinstance` guard at line 157 just skips phone
processing), yielding no numbered phones and a null first-contact name,
provided the record is a mapping whose flags field is well typed. -/
theorem claim_C10 (v : Json) (kvs : List (String × Json))
    (hArr : v.isArr = false)
    (hFlags : (flagsOf (Json.obj (("phone_numbers", v) :: kvs))).isSome = true) :
    ∃ fr, flattenRecord (Json.obj (("phone_numbers", v) :: kvs)) = some fr ∧
      fr.phones = [] ∧ fr.first_contact_name = Json.null := by
  obtain ⟨fl, hfl⟩ := Option.isSome_iff_exists.mp hFlags
  have hpl : phonesListOf (Json.obj (("phone_numbers", v) :: kvs)) = [] := by
    simp only [phonesListOf, Json.get, getKV, if_pos rfl]
    cases v with
    | arr l => simp [Json.isArr] at hArr
    | null => rfl
    | bool b => rfl
    | num n => rfl
    | str s => rfl
    | obj kvs2 => rfl
  simp only [flattenRecord, hfl, someBind, hpl]
  exact ⟨_, rfl, rfl, rfl⟩

/-- C10 witness: a record whose phone list is the string `"x"`. -/
theorem claim_C10_witness :
    ∃ fr, flattenRecord (Json.obj [("phone_numbers", Json.str "x")]) = some fr ∧
      fr.phones = [] ∧ fr.first_contact_name = Json.null :=
  claim_C10 (Json.str "x") [] rfl rfl

/-- C4: the first-contact name of a flattened record is the full name of
the first phone entry, in input order, whose contact is a truthy
structured object carrying a truthy full name, and null when no entry
qualifies; the latch flag in the scan means no later entry can overwrite
the captured name, which is exactly the first-match characterization
proved here. -/
theorem claim_C4 (r : Json) (fr : FlatRecord) (h : flattenRecord r = some fr) :
    fr.first_contact_name
      = ((phonesListOf r).findSome? entryFullName).getD Json.null := by
  obtain ⟨ps, hps, hph, hname⟩ := flattenRecord_inv r fr h
  rw [hname, scanPhones]
  exact scan_name _ initScan rfl

/-- C4 witness: of three contacts the first carries no name; the second
name, Alice, is captured and the third, Bob, does not overwrite it. -/
theorem claim_C4_witness :
    flattenRecord c4rec = some ((flattenRecord c4rec).getD defaultFlat) ∧
    ((flattenRecord c4rec).getD defaultFlat).first_contact_name
      = ((phonesListOf c4rec).findSome? entryFullName).getD Json.null ∧
    ((flattenRecord c4rec).getD defaultFlat).first_contact_name = Json.str "Alice" :=
  ⟨rfl, claim_C4 c4rec _ rfl, rfl⟩

/-- C3: the numbered phone list of every flattened record is strictly
ascending (hence duplicate-free) with no empty values, and any two
records whose scans collect the same set of phone values, in whatever
order, get the same numbered phone list. -/
theorem claim_C3 (r r2 : Json) (fr fr2 : FlatRecord)
    (h : flattenRecord r = some fr) (h2 : flattenRecord r2 = some fr2) :
    List.Chain' (fun a b => a < b) fr.phones ∧ fr.phones.Nodup ∧
    (∀ p ∈ fr.phones, p ≠ "") ∧
    ((∀ x ∈ (scanPhones (phonesListOf r)).phones, x ∈ (scanPhones (phonesListOf r2)).phones) →
      (∀ x ∈ (scanPhones (phonesListOf r2)).phones, x ∈ (scanPhones (phonesListOf r)).phones) →
      fr.phones = fr2.phones) := by
  obtain ⟨ps, hps, hph, -⟩ := flattenRecord_inv r fr h
  obtain ⟨ps2, hps2, hph2, -⟩ := flattenRecord_inv r2 fr2 h2
  have hmap := asStrings_eq_map _ ps hps
  have hmap2 := asStrings_eq_map _ ps2 hps2
  have hpw := pairwise_sortedUnique ps
  refine ⟨?_, ?_, ?_, ?_⟩
  · rw [hph]
    exact hpw.chain'
  · rw [hph]
    exact hpw.imp ne_of_lt
  · rw [hph]
    intro p hp
    have hmem : p ∈ ps := (mem_sortedUnique ps p).mp hp
    have hjmem : Json.str p ∈ (scanPhones (phonesListOf r)).phones := by
      rw [hmap]
      exact List.mem_map_of_mem _ hmem
    have ht := scan_phones_truthy (phonesListOf r) initScan
      (by intro x hx; cases hx) (Json.str p) hjmem
    simpa [Json.truthy] using ht
  · intro hm1 hm2
    rw [hph, hph2]
    apply sortedUnique_ext
    intro x
    constructor
    · intro hx
      have hj : Json.str x ∈ (scanPhones (phonesListOf r)).phones := by
        rw [hmap]
        exact List.mem_map_of_mem _ hx
      have h3 := hm1 _ hj
      rw [hmap2] at h3
      rcases List.mem_map.mp h3 with ⟨y, hy, hxy⟩
      cases hxy
      exact hy
    · intro hx
      have hj : Json.str x ∈ (scanPhones (phonesListOf r2)).phones := by
        rw [hmap2]
        exact List.mem_map_of_mem _ hx
      have h3 := hm2 _ hj
      rw [hmap] at h3
      rcases List.mem_map.mp h3 with ⟨y, hy, hxy⟩
      cases hxy
      exact hy

/-- C3 witness: two records collecting the phones b, a in opposite
orders both output the ascending duplicate-free list a, b. -/
theorem claim_C3_witness :
    flattenRecord c3rec = some ((flattenRecord c3rec).getD defaultFlat) ∧
    List.Chain' (fun a b => a < b) ((flattenRecord c3rec).getD defaultFlat).phones ∧
    ((flattenRecord c3rec).getD defaultFlat).phones.Nodup ∧
    ((flattenRecord c3rec).getD defaultFlat).phones
      = ((flattenRecord c3rec2).getD defaultFlat).phones ∧
    ((flattenRecord c3rec).getD defaultFlat).phones = ["a", "b"] := by
  have h := claim_C3 c3rec c3rec2 _ _ rfl rfl
  have hmm1 : ∀ x ∈ (scanPhones (phonesListOf c3rec)).phones,
      x ∈ (scanPhones (phonesListOf c3rec2)).phones := by
    intro x hx
    have hx2 : x ∈ [Json.str "b", Json.str "a"] := hx
    have hgoal : x ∈ [Json.str "a", Json.str "b"] := by
      rcases List.mem_cons.mp hx2 with rfl | hx3
      · exact List.mem_cons_of_mem _ (List.mem_cons_self _ _)
      · rcases List.mem_cons.mp hx3 with rfl | hx4
        · exact List.mem_cons_self _ _
        · cases hx4
    exact hgoal
  have hmm2 : ∀ x ∈ (scanPhones (phonesListOf c3rec2)).phones,
      x ∈ (scanPhones (phonesListOf c3rec)).phones := by
    intro x hx
    have hx2 : x ∈ [Json.str "a", Json.str "b"] := hx
    have hgoal : x ∈ [Json.str "b", Json.str "a"] := by
      rcases List.mem_cons.mp hx2 with rfl | hx3
      · exact List.mem_cons_of_mem _ (List.mem_cons_self _ _)
      · rcases List.mem_cons.mp hx3 with rfl | hx4
        · exact List.mem_cons_self _ _
        · cases hx4
    exact hgoal
  exact ⟨rfl, h.1, h.2.1, h.2.2.2 hmm1 hmm2, by decide⟩

/-- C6 counterexample: this record satisfies the claim's well-typedness
(a mapping, both optional list fields are lists when present), yet the
flattener faults on it: its contact carries the phone values `1` and
`"a"`, and `sorted` over that mixed set raises `TypeError`, so the
record is skipped. -/
theorem claim_C6_counterexample :
    listTypedRecord c6bad = true ∧ flattenRecord c6bad = none :=
  ⟨rfl, rfl⟩

/-- C6 amended: with well-typedness strengthened as the data model
states it, namely that collected phone values are strings, the flattener
never fails; a record missing every optional field yields the all-null
flat record with no flags and no phone fields; and a phone entry that is
not a structured object is skipped individually, leaving the record
output unchanged. -/
theorem claim_C6_amended (r e : Json) (rest : List Json) (kvs : List (String × Json))
    (hw : wellTypedRecord r = true) (he : e.isObj = false) :
    (flattenRecord r).isSome = true ∧
    flattenRecord (Json.obj []) = some defaultFlat ∧
    flattenRecord (Json.obj (("phone_numbers", Json.arr (e :: rest)) :: kvs))
      = flattenRecord (Json.obj (("phone_numbers", Json.arr rest) :: kvs)) := by
  refine ⟨?_, rfl, ?_⟩
  · simp only [wellTypedRecord, Bool.and_eq_true] at hw
    obtain ⟨⟨⟨hobj, hflags⟩, _hphones⟩, hstrings⟩ := hw
    cases r with
    | obj kvs2 =>
      obtain ⟨fl, hfl⟩ := Option.isSome_iff_exists.mp (flagsOf_isSome _ hflags)
      obtain ⟨ps, hps⟩ := Option.isSome_iff_exists.mp hstrings
      simp only [flattenRecord, hfl, someBind, hps]
      rfl
    | null => simp [Json.isObj] at hobj
    | bool b => simp [Json.isObj] at hobj
    | num n => simp [Json.isObj] at hobj
    | str s => simp [Json.isObj] at hobj
    | arr l => simp [Json.isObj] at hobj
  · have hscan : scanEntry initScan e = initScan := by
      cases e with
      | obj kvs2 => simp [Json.isObj] at he
      | null => rfl
      | bool b => rfl
      | num n => rfl
      | str s => rfl
      | arr l => rfl
    simp [flattenRecord, Json.getD, Json.get, getKV, phonesListOf, flagsOf,
      scanPhones, List.foldl_cons, hscan]

/-- C6 witness: a fully well-typed record flattens, the empty record
flattens to the all-null flat record, and dropping a non-dict phone
entry does not change the output. -/
theorem claim_C6_witness :
    (flattenRecord c6good).isSome = true ∧
    flattenRecord (Json.obj []) = some defaultFlat ∧
    flattenRecord (Json.obj [("phone_numbers", Json.arr [Json.str "x"])])
      = flattenRecord (Json.obj [("phone_numbers", Json.arr [])]) :=
  claim_C6_amended c6good (Json.str "x") [] [] rfl rfl

/-- Every buffer sub-failure detail starts with the one buffer-error
template of the handler at line 85. -/
theorem bufferDetail_marked (sub : BufferFailure) :
    "Error processing buffer data: ".data.isPrefixOf
      (ApiError.bufferError sub).detail.data = true := by
  rw [List.isPrefixOf_iff_prefix]
  show "Error processing buffer data: ".data
    <+: ("Error processing buffer data: " ++ sub.msg).data
  rw [String.data_append]
  exact List.prefix_append _ _

/-- C8: for every buffer-marked string body, a failure at any decode or
parse sub-step, the missing separator included, surfaces as the one
buffer-error kind with status 400 and the one detail template; no
sub-step gets its own top-level kind. -/
theorem claim_C8 (s : String) (e : ApiError)
    (hpre : imtMarker.isPrefixOf s.data = true)
    (herr : normalizeBody (.str s) = .error e) :
    e.isBufferKind = true ∧ e.status = 400 ∧
    "Error processing buffer data: ".data.isPrefixOf e.detail.data = true := by
  simp only [normalizeBody] at herr
  rw [if_pos hpre] at herr
  split at herr
  · split at herr
    · cases herr
      exact ⟨rfl, rfl, bufferDetail_marked _⟩
    · split at herr
      · cases herr
        exact ⟨rfl, rfl, bufferDetail_marked _⟩
      · split at herr
        · cases herr
          exact ⟨rfl, rfl, bufferDetail_marked _⟩
        · cases herr
  · cases herr
    exact ⟨rfl, rfl, bufferDetail_marked _⟩

/-- C8 witness: the marker with no separator at all fails with the
buffer-error kind. -/
theorem claim_C8_witness :
    imtMarker.isPrefixOf ("IMTBuffer" : String).data = true ∧
    normalizeBody (.str "IMTBuffer") = .error (.bufferError .missingSeparator) ∧
    (ApiError.bufferError BufferFailure.missingSeparator).isBufferKind = true ∧
    (ApiError.bufferError BufferFailure.missingSeparator).status = 400 ∧
    "Error processing buffer data: ".data.isPrefixOf
      (ApiError.bufferError BufferFailure.missingSeparator).detail.data = true := by
  have h := claim_C8 "IMTBuffer" (.bufferError .missingSeparator) (by decide) rfl
  exact ⟨by decide, rfl, h.1, h.2.1, h.2.2⟩

/-! Round-trip properties of the buffer envelope. -/

/-- Every byte of a UTF-8-encoded scalar value is below 256. -/
theorem utf8EncodeChar_lt (c : Char) : ∀ b ∈ utf8EncodeChar c, b < 256 := by
  intro b hb
  have hval : Nat.isValidChar c.toNat := c.valid
  have hv : c.toNat < 0x110000 := by
    rcases hval with h | ⟨h1, h2⟩
    · omega
    · omega
  simp only [utf8EncodeChar] at hb
  by_cases h1 : c.toNat < 0x80
  · rw [if_pos h1] at hb
    simp only [List.mem_singleton] at hb
    omega
  · rw [if_neg h1] at hb
    by_cases h2 : c.toNat < 0x800
    · rw [if_pos h2] at hb
      simp only [List.mem_cons, List.mem_singleton] at hb
      rcases hb with rfl | rfl | h
      · omega
      · omega
      · cases h
    · rw [if_neg h2] at hb
      by_cases h3 : c.toNat < 0x10000
      · rw [if_pos h3] at hb
        simp only [List.mem_cons, List.mem_singleton] at hb
        rcases hb with rfl | rfl | rfl | h
        · omega
        · omega
        · omega
        · cases h
      · rw [if_neg h3] at hb
        simp only [List.mem_cons, List.mem_singleton] at hb
        rcases hb with rfl | rfl | rfl | rfl | h
        · omega
        · omega
        · omega
        · omega
        · cases h

/-- Every byte of a UTF-8-encoded character sequence is below 256. -/
theorem utf8Encode_lt (cs : List Char) : ∀ b ∈ utf8Encode cs, b < 256 := by
  induction cs with
  | nil =>
    intro b hb
    cases hb
  | cons c cs ih =>
    intro b hb
    rw [utf8Encode] at hb
    rcases List.mem_append.mp hb with h | h
    · exact utf8EncodeChar_lt c b h
    · exact ih b h

/-- Dropping while a predicate that never holds drops nothing. -/
theorem dropWhile_all_false (p : Char → Bool) :
    ∀ l : List Char, (∀ c ∈ l, p c = false) → l.dropWhile p = l
  | [], _ => rfl
  | c :: rest, h => by
    rw [List.dropWhile_cons, h c (List.mem_cons_self c rest)]
    simp

/-- Stripping a string with no whitespace is the identity. -/
theorem pyStrip_id (l : List Char) (h : ∀ c ∈ l, pyWs c = false) : pyStrip l = l := by
  rw [pyStrip, dropWhile_all_false pyWs l h,
    dropWhile_all_false pyWs l.reverse (fun c hc => h c (List.mem_reverse.mp hc)),
    List.reverse_reverse]

/-- Facts about the hex digits: they decode back, and they are neither
separators nor whitespace. -/
theorem hexChar_facts : ∀ n < 16, hexDigitVal (hexChar n) = some n ∧
    hexChar n ≠ ' ' ∧ hexChar n ≠ ':' ∧ pyWs (hexChar n) = false := by decide

/-- Hex encoding then decoding of a byte sequence is the identity. -/
theorem bytesFromHex_hexEncode : ∀ bs : List Nat, (∀ b ∈ bs, b < 256) →
    bytesFromHex (hexEncode bs) = some bs := by
  intro bs
  induction bs with
  | nil => intro _; rfl
  | cons b rest ih =>
    intro h
    have hb := h b (List.mem_cons_self b rest)
    have f1 := hexChar_facts (b / 16) (by omega)
    have f2 := hexChar_facts (b % 16) (by omega)
    simp only [hexEncode, bytesFromHex, if_neg f1.2.1, f1.1, f2.1,
      ih (fun x hx => h x (List.mem_cons_of_mem _ hx))]
    have harith : 16 * (b / 16) + b % 16 = b := by omega
    rw [harith]

/-- Every character of a hex encoding of bytes is a hex digit. -/
theorem hexEncode_chars : ∀ bs : List Nat, (∀ b ∈ bs, b < 256) →
    ∀ x ∈ hexEncode bs, ∃ n, n < 16 ∧ x = hexChar n := by
  intro bs
  induction bs with
  | nil =>
    intro _ x hx
    cases hx
  | cons b rest ih =>
    intro h x hx
    have hb := h b (List.mem_cons_self b rest)
    rw [hexEncode] at hx
    rcases List.mem_cons.mp hx with rfl | hx2
    · exact ⟨b / 16, by omega, rfl⟩
    · rcases List.mem_cons.mp hx2 with rfl | hx3
      · exact ⟨b % 16, by omega, rfl⟩
      · exact ih (fun y hy => h y (List.mem_cons_of_mem _ hy)) x hx3

/-- A list without colons splits into itself alone. -/
theorem splitColonSpace_no_colon :
    ∀ l : List Char, (∀ c ∈ l, c ≠ ':') → splitColonSpace l = [l]
  | [], _ => rfl
  | [c], _ => rfl
  | c1 :: c2 :: rest, h => by
    rw [splitColonSpace,
      if_neg (fun hand => h c1 (List.mem_cons_self c1 _) hand.1),
      splitColonSpace_no_colon (c2 :: rest) (fun c hc => h c (List.mem_cons_of_mem _ hc))]

/-- Splitting at the single separator after a colon-free marker. -/
theorem splitColonSpace_sep :
    ∀ p q : List Char, (∀ c ∈ p, c ≠ ':') →
      splitColonSpace (p ++ ':' :: ' ' :: q) = p :: splitColonSpace q
  | [], q, _ => by
    rw [List.nil_append, splitColonSpace, if_pos ⟨rfl, rfl⟩]
  | [a], q, h => by
    have hbase : splitColonSpace (':' :: ' ' :: q) = [] :: splitColonSpace q := by
      rw [splitColonSpace, if_pos ⟨rfl, rfl⟩]
    rw [List.cons_append, List.nil_append, splitColonSpace,
      if_neg (fun hand => h a (List.mem_cons_self a _) hand.1), hbase]
  | a :: b :: p, q, h => by
    have hrec : splitColonSpace (b :: (p ++ ':' :: ' ' :: q)) = (b :: p) :: splitColonSpace q :=
      splitColonSpace_sep (b :: p) q (fun c hc => h c (List.mem_cons_of_mem _ hc))
    rw [List.cons_append, List.cons_append, splitColonSpace,
      if_neg (fun hand => h a (List.mem_cons_self a _) hand.1), hrec]

/-- Decoding an encoded scalar value at the front of a byte stream
yields that character and continues with the rest. -/
theorem utf8Decode_encodeChar (c : Char) (bs : List Nat) :
    utf8Decode (utf8EncodeChar c ++ bs) = (utf8Decode bs).map (fun cs => c :: cs) := by
  have hval : Nat.isValidChar c.toNat := c.valid
  have hofn : Char.ofNat c.toNat = c := Char.ofNat_toNat c
  rw [utf8EncodeChar]
  by_cases h1 : c.toNat < 0x80
  · rw [if_pos h1, List.singleton_append, utf8Decode, if_pos h1, hofn]
  · rw [if_neg h1]
    by_cases h2 : c.toNat < 0x800
    · rw [if_pos h2, List.cons_append, List.singleton_append, utf8Decode,
        if_neg (by omega : ¬0xC0 + c.toNat / 64 < 0x80),
        if_neg (by omega : ¬0xC0 + c.toNat / 64 < 0xC2),
        if_pos (by omega : 0xC0 + c.toNat / 64 < 0xE0),
        utf8DecodeTwo,
        if_pos (by rw [isCont]; exact decide_eq_true (by omega))]
      have harith : (0xC0 + c.toNat / 64 - 0xC0) * 64 + (0x80 + c.toNat % 64 - 0x80)
          = c.toNat := by omega
      rw [harith, hofn]
    · rw [if_neg h2]
      by_cases h3 : c.toNat < 0x10000
      · rw [if_pos h3, List.cons_append, List.cons_append, List.singleton_append,
          utf8Decode,
          if_neg (by omega : ¬0xE0 + c.toNat / 4096 < 0x80),
          if_neg (by omega : ¬0xE0 + c.toNat / 4096 < 0xC2),
          if_neg (by omega : ¬0xE0 + c.toNat / 4096 < 0xE0),
          if_pos (by omega : 0xE0 + c.toNat / 4096 < 0xF0),
          utf8DecodeThree]
        rw [if_pos (by
          rw [isCont, isCont,
            decide_eq_true (by omega
              : 0x80 ≤ 0x80 + c.toNat / 64 % 64 ∧ 0x80 + c.toNat / 64 % 64 < 0xC0),
            decide_eq_true (by omega
              : 0x80 ≤ 0x80 + c.toNat % 64 ∧ 0x80 + c.toNat % 64 < 0xC0)]
          rfl)]
        have harith : (0xE0 + c.toNat / 4096 - 0xE0) * 4096
            + (0x80 + c.toNat / 64 % 64 - 0x80) * 64 + (0x80 + c.toNat % 64 - 0x80)
            = c.toNat := by omega
        rw [harith,
          if_neg (by omega : ¬c.toNat < 0x800),
          if_neg (by rcases hval with h | ⟨ha, hb⟩ <;> omega
            : ¬(0xD800 ≤ c.toNat ∧ c.toNat < 0xE000)),
          hofn]
      · have hv : c.toNat < 0x110000 := by
          rcases hval with h | ⟨ha, hb⟩
          · omega
          · omega
        rw [if_neg h3, List.cons_append, List.cons_append, List.cons_append,
          List.singleton_append, utf8Decode,
          if_neg (by omega : ¬0xF0 + c.toNat / 0x40000 < 0x80),
          if_neg (by omega : ¬0xF0 + c.toNat / 0x40000 < 0xC2),
          if_neg (by omega : ¬0xF0 + c.toNat / 0x40000 < 0xE0),
          if_neg (by omega : ¬0xF0 + c.toNat / 0x40000 < 0xF0),
          if_pos (by omega : 0xF0 + c.toNat / 0x40000 < 0xF5),
          utf8DecodeFour]
        rw [if_pos (by
          rw [isCont, isCont, isCont,
            decide_eq_true (by omega
              : 0x80 ≤ 0x80 + c.toNat / 4096 % 64 ∧ 0x80 + c.toNat / 4096 % 64 < 0xC0),
            decide_eq_true (by omega
              : 0x80 ≤ 0x80 + c.toNat / 64 % 64 ∧ 0x80 + c.toNat / 64 % 64 < 0xC0),
            decide_eq_true (by omega
              : 0x80 ≤ 0x80 + c.toNat % 64 ∧ 0x80 + c.toNat % 64 < 0xC0)]
          rfl)]
        have harith : (0xF0 + c.toNat / 0x40000 - 0xF0) * 0x40000
            + (0x80 + c.toNat / 4096 % 64 - 0x80) * 4096
            + (0x80 + c.toNat / 64 % 64 - 0x80) * 64 + (0x80 + c.toNat % 64 - 0x80)
            = c.toNat := by omega
        rw [harith,
          if_neg (by omega : ¬c.toNat < 0x10000),
          if_neg (by omega : ¬0x110000 ≤ c.toNat),
          hofn]

/-- UTF-8 encoding then decoding of a character sequence is the
identity. -/
theorem utf8Decode_encode : ∀ cs : List Char, utf8Decode (utf8Encode cs) = some cs
  | [] => rfl
  | c :: cs => by
    rw [utf8Encode, utf8Decode_encodeChar, utf8Decode_encode cs]
    rfl

/-- C9: normalizing the concrete envelope of the hex-encoded UTF-8 JSON
text for the mapping with key a and value 1 yields that mapping; and in
general, the envelope built from the marker, the separator and the hex
encoding of the UTF-8 bytes of any JSON text normalizes to the value
that text denotes. -/
theorem claim_C9 :
    normalizeBody (.str "IMTBuffer: 7b2261223a317d") = .ok (.obj [("a", .num 1)]) ∧
    (∀ (t : List Char) (v : Json), jsonParse t = some v →
      normalizeBody (.str (bufferEnvelope t)) = .ok v) := by
  constructor
  · rfl
  · intro t v hpv
    have hlt := utf8Encode_lt t
    have hhexfacts : ∀ x ∈ hexEncode (utf8Encode t), x ≠ ':' ∧ pyWs x = false := by
      intro x hx
      obtain ⟨n, hn, rfl⟩ := hexEncode_chars (utf8Encode t) hlt x hx
      obtain ⟨-, -, hc, hw⟩ := hexChar_facts n hn
      exact ⟨hc, hw⟩
    have hpre : imtMarker.isPrefixOf
        (String.mk (imtMarker ++ ':' :: ' ' :: hexEncode (utf8Encode t))).data = true := by
      rw [List.isPrefixOf_iff_prefix]
      exact List.prefix_append _ _
    have hsplit : splitColonSpace
        (String.mk (imtMarker ++ ':' :: ' ' :: hexEncode (utf8Encode t))).data
        = [imtMarker, hexEncode (utf8Encode t)] := by
      show splitColonSpace (imtMarker ++ ':' :: ' ' :: hexEncode (utf8Encode t)) = _
      rw [splitColonSpace_sep imtMarker _ (by decide),
        splitColonSpace_no_colon _ (fun c hc => (hhexfacts c hc).1)]
    have hstrip : pyStrip (hexEncode (utf8Encode t)) = hexEncode (utf8Encode t) :=
      pyStrip_id _ (fun c hc => (hhexfacts c hc).2)
    show normalizeBody (.str (String.mk (imtMarker ++ ':' :: ' ' :: hexEncode (utf8Encode t))))
      = .ok v
    simp only [normalizeBody]
    rw [if_pos hpre]
    simp only [hsplit]
    simp only [hstrip, bytesFromHex_hexEncode _ hlt, utf8Decode_encode t, hpv]

/-- C9 witness: the general round trip applied to the concrete JSON
text of the mapping with key a and value 1, whose envelope is the
lower-case hex string of the statement. -/
theorem claim_C9_witness :
    jsonParse c9text = some (.obj [("a", .num 1)]) ∧
    bufferEnvelope c9text = "IMTBuffer: 7b2261223a317d" ∧
    normalizeBody (.str (bufferEnvelope c9text)) = .ok (.obj [("a", .num 1)]) := by
  have h := claim_C9.2 c9text (.obj [("a", .num 1)]) rfl
  exact ⟨rfl, rfl, h⟩
